import Mathlib

/-!
Shallow embedding of the raft-vm bytecode virtual machine
(src/vm/{value,heap,execution,opcodes,vm}.rs) and proofs about the
behaviour its specification claims.

Modelling conventions:
* Rust `i32` is modelled as an unbounded `Int` together with explicit
  two's-complement wrapping (`wrap32`) in every arithmetic operation,
  matching release-mode wrapping semantics.
* Rust `f64` is modelled as an exact rational (`ℚ`).  Every floating-point
  value appearing in the verified statements is dyadic and produced exactly
  by the hardware operation in question, so the model and IEEE agree there;
  the spots where they can disagree are flagged at the definitions below.
* The tokio mailbox channels are modelled by an explicit queue plus a
  `closed` flag; a receive on an empty open mailbox and a send into a full
  open mailbox do not complete and are represented by the `blocked` outcome.
* Rust mutates the heap and stack in place, so an instruction that returns
  `Err` leaves its earlier mutations visible; the `fault` outcome therefore
  carries the machine state at the moment of the fault.
-/

set_option maxHeartbeats 1600000

namespace RaftVM

/-- Two's-complement wrap of an unbounded integer into `i32` range. -/
def wrap32 (n : Int) : Int := (n + 2 ^ 31) % 2 ^ 32 - 2 ^ 31

/-- `Value` (src/vm/value.rs): the VM's copyable scalar.  `integer` is `i32`
(wrapped explicitly by the operations), `float` is `f64` modelled as an
exact rational, `reference` holds a heap address. -/
inductive Value where
  | integer (i : Int)
  | float (q : ℚ)
  | boolean (b : Bool)
  | reference (address : Nat)
  | null
  deriving DecidableEq, Repr

/-- `VmError` (src/vm/error.rs together with the variants used by
src/vm/opcodes.rs): the VM's error taxonomy.  `message` is the
string-message variant produced by the `Value` arithmetic helpers. -/
inductive VmError where
  | message (s : String)
  | stackUnderflow
  | stackUnderflowFor (site : String)
  | typeMismatch (site : String)
  | divisionByZero
  | executionOutOfBounds
  | noBytecode
  | variableNotFound (index : Nat)
  | invalidReference
  | mailboxEmpty
  | channelSend (error : String) (value : Value)
  | compilationError (msg : String)
  deriving DecidableEq, Repr

/-- `Value::add` (src/vm/value.rs). -/
def Value.add : Value → Value → Except VmError Value
  | .integer a, .integer b => .ok (.integer (wrap32 (a + b)))
  | .float a, .float b => .ok (.float (a + b))
  | _, _ => .error (.message "Type mismatch for Add")

/-- `Value::sub` (src/vm/value.rs). -/
def Value.sub : Value → Value → Except VmError Value
  | .integer a, .integer b => .ok (.integer (wrap32 (a - b)))
  | .float a, .float b => .ok (.float (a - b))
  | _, _ => .error (.message "Type mismatch for Sub")

/-- `Value::mul` (src/vm/value.rs). -/
def Value.mul : Value → Value → Except VmError Value
  | .integer a, .integer b => .ok (.integer (wrap32 (a * b)))
  | .float a, .float b => .ok (.float (a * b))
  | _, _ => .error (.message "Type mismatch for Mul")

/-- `Value::div` (src/vm/value.rs).  Rust integer division truncates toward
zero, which is `Int.div`. -/
def Value.div : Value → Value → Except VmError Value
  | .integer a, .integer b =>
      if b = 0 then .error (.message "Division by zero")
      else .ok (.integer (wrap32 (Int.tdiv a b)))
  | .float a, .float b =>
      if b = 0 then .error (.message "Division by zero")
      else .ok (.float (a / b))
  | _, _ => .error (.message "Type mismatch for Div")

/-- `OpCode` (src/vm/opcodes.rs).  `ret` models `OpCode::Return` (renamed
only because `return` is a Lean keyword). -/
inductive OpCode where
  | storeVar (index : Nat)
  | loadVar (index : Nat)
  | pushConst (v : Value)
  | pop
  | dup
  | swap
  | add
  | sub
  | mul
  | div
  | mod
  | neg
  | exp
  | jump (target : Nat)
  | jumpIfFalse (target : Nat)
  | call (target : Nat)
  | ret
  | spawnActor (entry : Nat)
  | sendMessage
  | receiveMessage
  | spawnSupervisor (entry : Nat)
  | setStrategy (code : Nat)
  | restartChild (index : Nat)
  deriving DecidableEq, Repr

/-- The slice of a spawned child `VM` paired with its mailbox `Sender`
(src/vm/vm.rs `VM::new`) that the parent-side instruction semantics can
observe: the child's instruction pointer and bytecode (written by the spawn
instructions via `set_ip`), and the state of its bounded mailbox channel —
`queue` is the buffered FIFO (capacity 100), `closed` mirrors the channel
having been closed.  The child's own stack, locals and heap are never
touched by any parent-side instruction and are omitted. -/
structure ChildVM where
  ip : Nat
  bytecode : List OpCode
  queue : List Value
  closed : Bool
  deriving DecidableEq, Repr

/-- The data fields of `NativeFunction` (src/vm/heap.rs); the Rust function
pointer is omitted because no instruction of the interpreter invokes it. -/
structure NativeFunctionData where
  name : String
  arity : Nat
  deriving DecidableEq, Repr

/-- `HeapObject` (src/vm/heap.rs): each variant carries its reference
count. -/
inductive HeapObject where
  | array (values : List Value) (rc : Nat)
  | string (s : String) (rc : Nat)
  | module (name : String) (exports : List (String × Value)) (rc : Nat)
  | nativeFunction (data : NativeFunctionData) (rc : Nat)
  | actor (child : ChildVM) (rc : Nat)
  | supervisor (child : ChildVM) (rc : Nat)
  deriving DecidableEq, Repr

/-- The reference count stored in a `HeapObject` (the per-variant `usize`
field read by `VM::heap_ref_count`, src/vm/vm.rs). -/
def HeapObject.refCount : HeapObject → Nat
  | .array _ rc => rc
  | .string _ rc => rc
  | .module _ _ rc => rc
  | .nativeFunction _ rc => rc
  | .actor _ rc => rc
  | .supervisor _ rc => rc

/-- `HeapObject::is_alive` (src/vm/heap.rs): alive iff the reference count
is positive. -/
def HeapObject.is_alive : HeapObject → Bool
  | .array _ rc => 0 < rc
  | .string _ rc => 0 < rc
  | .module _ _ rc => 0 < rc
  | .nativeFunction _ rc => 0 < rc
  | .actor _ rc => 0 < rc
  | .supervisor _ rc => 0 < rc

/-- `HeapObject::increment_ref` (src/vm/heap.rs). -/
def HeapObject.increment_ref : HeapObject → HeapObject
  | .array v rc => .array v (rc + 1)
  | .string s rc => .string s (rc + 1)
  | .module n e rc => .module n e (rc + 1)
  | .nativeFunction d rc => .nativeFunction d (rc + 1)
  | .actor c rc => .actor c (rc + 1)
  | .supervisor c rc => .supervisor c (rc + 1)

/-- `HeapObject::decrement_ref` (src/vm/heap.rs): saturates at zero. -/
def HeapObject.decrement_ref : HeapObject → HeapObject
  | .array v rc => .array v (if 0 < rc then rc - 1 else rc)
  | .string s rc => .string s (if 0 < rc then rc - 1 else rc)
  | .module n e rc => .module n e (if 0 < rc then rc - 1 else rc)
  | .nativeFunction d rc => .nativeFunction d (if 0 < rc then rc - 1 else rc)
  | .actor c rc => .actor c (if 0 < rc then rc - 1 else rc)
  | .supervisor c rc => .supervisor c (if 0 < rc then rc - 1 else rc)

/-- Lookup in the heap's address-keyed store (the `HashMap` is modelled as
an association list; keys are unique because allocation always uses a fresh
address). -/
def findObj : List (Nat × HeapObject) → Nat → Option HeapObject
  | [], _ => none
  | (k, o) :: rest, a => if k = a then some o else findObj rest a

/-- In-place mutation of one entry of the store (`get_mut` followed by a
write). -/
def updateObj : List (Nat × HeapObject) → Nat → HeapObject → List (Nat × HeapObject)
  | [], _, _ => []
  | (k, o) :: rest, a, o' =>
      if k = a then (k, o') :: rest else (k, o) :: updateObj rest a o'

/-- `Heap` (src/vm/heap.rs): address-keyed store plus the monotone
next-address counter. -/
structure Heap where
  objects : List (Nat × HeapObject)
  next_address : Nat
  deriving DecidableEq, Repr

/-- `Heap::new`. -/
def Heap.mkNew : Heap := ⟨[], 0⟩

/-- `Heap::get`. -/
def Heap.get (h : Heap) (address : Nat) : Option HeapObject :=
  findObj h.objects address

/-- `Heap::allocate`: insert at `next_address`, bump the counter, return
the address. -/
def Heap.allocate (h : Heap) (o : HeapObject) : Heap × Nat :=
  (⟨(h.next_address, o) :: h.objects, h.next_address + 1⟩, h.next_address)

/-- `Heap::collect_garbage`: retain exactly the entries whose `is_alive`
predicate holds. -/
def Heap.collect_garbage (h : Heap) : Heap :=
  ⟨h.objects.filter (fun p => p.2.is_alive), h.next_address⟩

/-- `VM::heap_ref_count` (src/vm/vm.rs): test observer for a reference
count. -/
def heap_ref_count (h : Heap) (address : Nat) : Option Nat :=
  (h.get address).map HeapObject.refCount

/-- `ExecutionContext` (src/vm/execution.rs).  The head of `stack` and of
`call_stack` is the top of the corresponding Rust `Vec`. -/
structure ExecutionContext where
  stack : List Value
  locals : List (Nat × Value)
  ip : Nat
  call_stack : List Nat
  bytecode : List OpCode
  deriving DecidableEq, Repr

/-- The VM's own bounded mailbox receiver (tokio `Receiver<Value>`):
buffered FIFO plus the closed flag. -/
structure Mailbox where
  queue : List Value
  closed : Bool
  deriving DecidableEq, Repr

/-- The state a single VM instruction acts on: the `ExecutionContext`, the
heap and the VM's own mailbox (the triple of `&mut` borrows passed to
`OpCode::execute`). -/
structure VMState where
  execution : ExecutionContext
  heap : Heap
  mailbox : Mailbox
  deriving DecidableEq, Repr

/-- Outcome of executing one instruction: success, a fault (carrying the
state at the moment of the fault, since Rust mutates in place), or a
suspension on a mailbox that cannot currently complete the operation. -/
inductive StepOutcome where
  | ok (s : VMState)
  | fault (e : VmError) (s : VMState)
  | blocked (s : VMState)
  deriving DecidableEq, Repr

/-- `StepOutcome.isOk`: did the instruction succeed? -/
def StepOutcome.isOk : StepOutcome → Bool
  | .ok _ => true
  | _ => false

/-- `increment_reference` (src/vm/opcodes.rs). -/
def increment_reference (heap : Heap) (address : Nat) : Except VmError Heap :=
  match heap.get address with
  | some o => .ok ⟨updateObj heap.objects address o.increment_ref, heap.next_address⟩
  | none => .error .invalidReference

/-- `decrement_reference` (src/vm/opcodes.rs). -/
def decrement_reference (heap : Heap) (address : Nat) : Except VmError Heap :=
  match heap.get address with
  | some o => .ok ⟨updateObj heap.objects address o.decrement_ref, heap.next_address⟩
  | none => .error .invalidReference

/-- `push_value` (src/vm/opcodes.rs): increment a pushed reference's count,
then push.  A failed increment leaves the state unchanged. -/
def push_value (s : VMState) (v : Value) : Except (VmError × VMState) VMState :=
  match v with
  | .reference address =>
      match increment_reference s.heap address with
      | .ok heap' =>
          .ok { s with heap := heap',
                       execution := { s.execution with stack := v :: s.execution.stack } }
      | .error e => .error (e, s)
  | _ => .ok { s with execution := { s.execution with stack := v :: s.execution.stack } }

/-- `pop_value` (src/vm/opcodes.rs): pop, then decrement a popped
reference's count.  The pop itself happens before the decrement, so a
failed decrement still leaves the value removed from the stack. -/
def pop_value (s : VMState) : Except (VmError × VMState) (Value × VMState) :=
  match s.execution.stack with
  | [] => .error (.stackUnderflow, s)
  | v :: rest =>
      let s1 : VMState := { s with execution := { s.execution with stack := rest } }
      match v with
      | .reference address =>
          match decrement_reference s1.heap address with
          | .ok heap' => .ok (v, { s1 with heap := heap' })
          | .error e => .error (e, s1)
      | _ => .ok (v, s1)

/-- `binary_op` (src/vm/opcodes.rs): raw `Vec` pops without reference
discipline; pops `b` then `a`, applies `f a b`, pushes the result.  An
error from `f` propagates after both pops. -/
def binary_op (s : VMState) (f : Value → Value → Except VmError Value) : StepOutcome :=
  match s.execution.stack with
  | b :: a :: rest =>
      (match f a b with
       | .ok result =>
           .ok { s with execution := { s.execution with stack := result :: rest } }
       | .error e =>
           .fault e { s with execution := { s.execution with stack := rest } })
  | _ => .fault .stackUnderflow s

/-- `unary_op` (src/vm/opcodes.rs). -/
def unary_op (s : VMState) (f : Value → Except VmError Value) : StepOutcome :=
  match s.execution.stack with
  | v :: rest =>
      (match f v with
       | .ok result =>
           .ok { s with execution := { s.execution with stack := result :: rest } }
       | .error e =>
           .fault e { s with execution := { s.execution with stack := rest } })
  | [] => .fault .stackUnderflow s

/-- `HashMap::insert` on the locals table: returns the previous binding and
the updated table. -/
def insertLocal : List (Nat × Value) → Nat → Value → Option Value × List (Nat × Value)
  | [], i, v => (none, [(i, v)])
  | (k, w) :: rest, i, v =>
      if k = i then (some w, (i, v) :: rest)
      else
        let r := insertLocal rest i v
        (r.1, (k, w) :: r.2)

/-- `HashMap::get` on the locals table. -/
def findLocal : List (Nat × Value) → Nat → Option Value
  | [], _ => none
  | (k, w) :: rest, i => if k = i then some w else findLocal rest i

/-- Model of Rust `(x as f64).powi(y)`, over the exact-rational float
model: the integer power, reciprocated for a negative exponent.  IEEE and
the model agree whenever the exact value is representable (as in every
instance appearing in the claims); IEEE `0.0f64.powi(negative)` is
`+inf`, which has no rational counterpart and is modelled as `0`. -/
def powiQ (x : Int) (y : Int) : ℚ :=
  if 0 ≤ y then (x : ℚ) ^ y.toNat
  else if x = 0 then 0
  else ((x : ℚ) ^ (-y).toNat)⁻¹

/-- Model of Rust `f64::powf` over the exact-rational float model: the
exact power for integral exponents, `0` otherwise.  Only the fact that
`Float × Float` exponentiation produces a `Float` enters any claim. -/
def powfQ (x y : ℚ) : ℚ :=
  if y.den = 1 then
    (if 0 ≤ y.num then x ^ y.num.toNat else (x ^ (-y.num).toNat)⁻¹)
  else 0

/-- `OpCode::execute` (src/vm/opcodes.rs): one instruction dispatch over
the execution context, heap and mailbox. -/
def execute (op : OpCode) (s : VMState) : StepOutcome :=
  match op with
  | .add => binary_op s Value.add
  | .sub => binary_op s Value.sub
  | .mul => binary_op s Value.mul
  | .div => binary_op s Value.div
  | .neg =>
      unary_op s (fun a =>
        match a with
        | .integer i => .ok (.integer (wrap32 (-i)))
        | .float f => .ok (.float (-f))
        | _ => .error (.typeMismatch "Neg"))
  | .pushConst v =>
      (match push_value s v with
       | .ok s' => .ok s'
       | .error (e, s') => .fault e s')
  | .pop =>
      (match pop_value s with
       | .ok (_, s') => .ok s'
       | .error (e, s') => .fault e s')
  | .dup =>
      (match s.execution.stack with
       | v :: _ =>
           (match push_value s v with
            | .ok s' => .ok s'
            | .error (e, s') => .fault e s')
       | [] => .fault .stackUnderflow s)
  | .swap =>
      (match s.execution.stack with
       | b :: a :: rest =>
           .ok { s with execution := { s.execution with stack := a :: b :: rest } }
       | _ => .fault (.stackUnderflowFor "Swap") s)
  | .storeVar index =>
      (match pop_value s with
       | .error (e, s') => .fault e s'
       | .ok (value, s1) =>
           let r := insertLocal s1.execution.locals index value
           let s2 : VMState := { s1 with execution := { s1.execution with locals := r.2 } }
           let incStored : VMState → StepOutcome := fun st =>
             match value with
             | .reference address =>
                 (match increment_reference st.heap address with
                  | .ok heap' => .ok { st with heap := heap' }
                  | .error e => .fault e st)
             | _ => .ok st
           match r.1 with
           | some (.reference address) =>
               (match decrement_reference s2.heap address with
                | .ok heap' => incStored { s2 with heap := heap' }
                | .error e => .fault e s2)
           | _ => incStored s2)
  | .loadVar index =>
      (match findLocal s.execution.locals index with
       | some value =>
           (match push_value s value with
            | .ok s' => .ok s'
            | .error (e, s') => .fault e s')
       | none => .fault (.variableNotFound index) s)
  | .mod =>
      binary_op s (fun a b =>
        match a, b with
        | .integer x, .integer y =>
            if y = 0 then .error .divisionByZero
            else .ok (.integer (Int.tmod x y))
        | _, _ => .error (.typeMismatch "Mod"))
  | .exp =>
      binary_op s (fun a b =>
        match a, b with
        | .integer x, .integer y =>
            if y < 0 then .ok (.float (powiQ x y))
            else .ok (.integer (wrap32 (x ^ y.toNat)))
        | .float x, .float y => .ok (.float (powfQ x y))
        | _, _ => .error (.typeMismatch "Exp"))
  | .jump target =>
      if s.execution.bytecode.length < target then .fault .executionOutOfBounds s
      else .ok { s with execution := { s.execution with ip := target } }
  | .jumpIfFalse target =>
      (match pop_value s with
       | .error (e, s') => .fault e s'
       | .ok (value, s1) =>
           match value with
           | .boolean false =>
               if s1.execution.bytecode.length < target then
                 .fault .executionOutOfBounds s1
               else .ok { s1 with execution := { s1.execution with ip := target } }
           | .boolean true => .ok s1
           | _ => .fault (.typeMismatch "JumpIfFalse") s1)
  | .call addr =>
      if s.execution.bytecode.length ≤ addr then .fault .executionOutOfBounds s
      else
        .ok { s with execution :=
          { s.execution with
              call_stack := s.execution.ip :: s.execution.call_stack,
              ip := addr } }
  | .ret =>
      (match s.execution.call_stack with
       | return_addr :: rest =>
           .ok { s with execution := { s.execution with ip := return_addr, call_stack := rest } }
       | [] => .fault .stackUnderflow s)
  | .receiveMessage =>
      (match s.mailbox.queue with
       | message :: rest =>
           let s1 : VMState := { s with mailbox := { s.mailbox with queue := rest } }
           (match message with
            | .reference address =>
                (match decrement_reference s1.heap address with
                 | .error e => .fault e s1
                 | .ok heap' =>
                     match push_value { s1 with heap := heap' } message with
                     | .ok s2 => .ok s2
                     | .error (e, s2) => .fault e s2)
            | _ =>
                match push_value s1 message with
                | .ok s2 => .ok s2
                | .error (e, s2) => .fault e s2)
       | [] => if s.mailbox.closed then .fault .mailboxEmpty s else .blocked s)
  | .spawnActor addr =>
      -- the source constructs the child VM before the bounds check, but a
      -- child that is dropped on the error path has no observable effect
      if s.execution.bytecode.length ≤ addr then .fault .executionOutOfBounds s
      else
        let child : ChildVM :=
          { ip := addr, bytecode := s.execution.bytecode, queue := [], closed := false }
        let alloc := s.heap.allocate (.actor child 0)
        (match push_value { s with heap := alloc.1 } (.reference alloc.2) with
         | .ok s2 => .ok s2
         | .error (e, s2) => .fault e s2)
  | .sendMessage =>
      (match pop_value s with
       | .error (e, s') => .fault e s'
       | .ok (actor_ref, s1) =>
           match pop_value s1 with
           | .error (e, s') => .fault e s'
           | .ok (message, s2) =>
               match actor_ref with
               | .reference address =>
                   (match s2.heap.get address with
                    | some (.actor _ _) =>
                        -- the sender is cloned; then the message's count is
                        -- incremented for the channel slot if it is a reference
                        let incResult : Except (VmError × VMState) VMState :=
                          match message with
                          | .reference message_address =>
                              (match increment_reference s2.heap message_address with
                               | .ok heap' => .ok { s2 with heap := heap' }
                               | .error e => .error (e, s2))
                          | _ => .ok s2
                        (match incResult with
                         | .error (e, s') => .fault e s'
                         | .ok s3 =>
                             match s3.heap.get address with
                             | some (.actor child rc) =>
                                 if child.closed then
                                   .fault (.channelSend "channel closed" message) s3
                                 else if 100 ≤ child.queue.length then .blocked s3
                                 else
                                   let child' : ChildVM :=
                                     { child with queue := child.queue ++ [message] }
                                   let s4 : VMState :=
                                     { s3 with heap :=
                                       ⟨updateObj s3.heap.objects address (.actor child' rc),
                                        s3.heap.next_address⟩ }
                                   (match push_value s4 (.reference address) with
                                    | .ok s5 => .ok s5
                                    | .error (e, s5) => .fault e s5)
                             -- unreachable: the increment preserves the entry
                             | _ => .fault .invalidReference s3)
                    | _ => .fault .invalidReference s2)
               | _ => .fault .invalidReference s2)
  | .spawnSupervisor addr =>
      if s.execution.bytecode.length ≤ addr then .fault .executionOutOfBounds s
      else
        let child : ChildVM :=
          { ip := addr, bytecode := s.execution.bytecode, queue := [], closed := false }
        let alloc := s.heap.allocate (.supervisor child 0)
        (match push_value { s with heap := alloc.1 } (.reference alloc.2) with
         | .ok s2 => .ok s2
         | .error (e, s2) => .fault e s2)
  | .setStrategy _ =>
      (match pop_value s with
       | .error (e, s') => .fault e s'
       | .ok (sup_ref, s1) =>
           match sup_ref with
           | .reference addr =>
               (match s1.heap.get addr with
                | some (.supervisor _ _) =>
                    -- VM::set_strategy is a logging stub: no state change
                    (match push_value s1 (.reference addr) with
                     | .ok s2 => .ok s2
                     | .error (e, s2) => .fault e s2)
                | _ => .fault .invalidReference s1)
           | _ => .fault .invalidReference s1)
  | .restartChild _ =>
      (match pop_value s with
       | .error (e, s') => .fault e s'
       | .ok (sup_ref, s1) =>
           match sup_ref with
           | .reference addr =>
               (match s1.heap.get addr with
                | some (.supervisor _ _) =>
                    -- VM::restart_child is a logging stub: no state change
                    (match push_value s1 (.reference addr) with
                     | .ok s2 => .ok s2
                     | .error (e, s2) => .fault e s2)
                | _ => .fault .invalidReference s1)
           | _ => .fault .invalidReference s1)

/-- `ExecutionContext::step` (src/vm/execution.rs): fault
`ExecutionOutOfBounds` when the IP is past the end; otherwise fetch the
instruction at the IP, execute it, and advance the IP by one only if the
instruction left it unchanged. -/
def step (s : VMState) : StepOutcome :=
  if h : s.execution.ip < s.execution.bytecode.length then
    let opcode := s.execution.bytecode.get ⟨s.execution.ip, h⟩
    match execute opcode s with
    | .ok s' =>
        if s'.execution.ip = s.execution.ip then
          .ok { s' with execution := { s'.execution with ip := s'.execution.ip + 1 } }
        else .ok s'
    | r => r
  else .fault .executionOutOfBounds s

/-- Outcome of the `VM::run` loop, with explicit fuel for the loop. -/
inductive RunOutcome where
  | ok (s : VMState)
  | fault (e : VmError) (s : VMState)
  | blocked (s : VMState)
  | fuelOut (s : VMState)
  deriving DecidableEq, Repr

/-- The `while ip < len` loop body of `VM::run` (src/vm/vm.rs), with fuel
bounding the number of iterations. -/
def runFuel : Nat → VMState → RunOutcome
  | 0, s =>
      if s.execution.ip < s.execution.bytecode.length then .fuelOut s else .ok s
  | fuel + 1, s =>
      if s.execution.ip < s.execution.bytecode.length then
        match step s with
        | .ok s' => runFuel fuel s'
        | .fault e s' => .fault e s'
        | .blocked s' => .blocked s'
      else .ok s

/-- `VM::run` (src/vm/vm.rs): fault `NoBytecode` on an empty instruction
vector without stepping; otherwise run the loop. -/
def run (fuel : Nat) (s : VMState) : RunOutcome :=
  if s.execution.bytecode = [] then .fault .noBytecode s else runFuel fuel s

/-- The state `VM::new` wraps around a bytecode vector: empty stack,
locals and call stack, IP 0, fresh heap and open empty mailbox. -/
def VMState.mkNew (bytecode : List OpCode) : VMState :=
  ⟨⟨[], [], 0, [], bytecode⟩, Heap.mkNew, ⟨[], false⟩⟩

/-! ### Basic lemmas about the heap store -/

theorem HeapObject.is_alive_iff (o : HeapObject) : o.is_alive = true ↔ 0 < o.refCount := by
  cases o <;> simp [HeapObject.is_alive, HeapObject.refCount]

theorem HeapObject.refCount_increment (o : HeapObject) :
    o.increment_ref.refCount = o.refCount + 1 := by
  cases o <;> rfl

theorem HeapObject.refCount_decrement (o : HeapObject) :
    o.decrement_ref.refCount = o.refCount - 1 := by
  cases o <;> simp [HeapObject.decrement_ref, HeapObject.refCount] <;> omega

theorem findObj_updateObj (l : List (Nat × HeapObject)) (a b : Nat) (o' : HeapObject) :
    findObj (updateObj l a o') b =
      if b = a then (findObj l a).map (fun _ => o') else findObj l b := by
  induction l with
  | nil =>
      simp only [updateObj, findObj]
      split <;> rfl
  | cons p rest ih =>
      obtain ⟨k, o⟩ := p
      by_cases hk : k = a
      · subst hk
        by_cases hb : b = k
        · simp [updateObj, findObj, hb]
        · have hb' : ¬k = b := fun h => hb h.symm
          simp [updateObj, findObj, hb, hb']
      · by_cases hb : b = k
        · subst hb
          simp [updateObj, findObj, hk]
        · have hb' : ¬k = b := fun h => hb h.symm
          simp [updateObj, findObj, hk, hb, hb', ih]

theorem Heap.get_update (h : Heap) (a b : Nat) (o' : HeapObject) :
    (Heap.mk (updateObj h.objects a o') h.next_address).get b =
      if b = a then (h.get a).map (fun _ => o') else h.get b :=
  findObj_updateObj h.objects a b o'

theorem decrement_reference_eq (h : Heap) (a : Nat) (o : HeapObject)
    (hget : h.get a = some o) :
    decrement_reference h a = .ok ⟨updateObj h.objects a o.decrement_ref, h.next_address⟩ := by
  simp [decrement_reference, hget]

theorem increment_reference_eq (h : Heap) (a : Nat) (o : HeapObject)
    (hget : h.get a = some o) :
    increment_reference h a = .ok ⟨updateObj h.objects a o.increment_ref, h.next_address⟩ := by
  simp [increment_reference, hget]

/-! ### C9 — garbage collection -/

/-- C9: `collect_garbage()` removes exactly the heap entries whose reference
count is zero (membership in the collected heap is membership in the old heap
with a non-zero count), leaves `next_address` unchanged, is a no-op on a heap
in which no entry has count zero, and is idempotent. -/
theorem C9_collect_garbage_exact_noop_idempotent :
    (∀ (h : Heap) (p : Nat × HeapObject),
        p ∈ h.collect_garbage.objects ↔ p ∈ h.objects ∧ p.2.refCount ≠ 0) ∧
    (∀ h : Heap, h.collect_garbage.next_address = h.next_address) ∧
    (∀ h : Heap, (∀ p ∈ h.objects, p.2.refCount ≠ 0) → h.collect_garbage = h) ∧
    (∀ h : Heap, h.collect_garbage.collect_garbage = h.collect_garbage) := by
  refine ⟨?_, ?_, ?_, ?_⟩
  · intro h p
    simp [Heap.collect_garbage, List.mem_filter, HeapObject.is_alive_iff,
      Nat.pos_iff_ne_zero]
  · intro h
    rfl
  · intro h hall
    cases h with
    | mk objects na =>
        simp only [Heap.collect_garbage, Heap.mk.injEq, and_true]
        refine List.filter_eq_self.mpr fun p hp => ?_
        exact (HeapObject.is_alive_iff p.2).mpr (Nat.pos_of_ne_zero (hall p hp))
  · intro h
    cases h with
    | mk objects na =>
        simp only [Heap.collect_garbage, Heap.mk.injEq, and_true]
        refine List.filter_eq_self.mpr fun p hp => ?_
        exact (List.mem_filter.mp hp).2

/-- Witness for C9 at a concrete heap in which every count is positive:
collection is a no-op there. -/
theorem C9_witness :
    (⟨[(0, HeapObject.array [] 1)], 1⟩ : Heap).collect_garbage =
      ⟨[(0, HeapObject.array [] 1)], 1⟩ :=
  C9_collect_garbage_exact_noop_idempotent.2.2.1 _ (by decide)

/-! ### C1 — Call pushes the un-advanced instruction pointer (code bug)

`ExecutionContext::step` advances the IP only AFTER `OpCode::execute`
returns (and only when the instruction left the IP unchanged), so
`OpCode::Call` pushes the index of the `Call` itself, not of the following
instruction.  The repository's own test `test_jump_and_call_modify_ip`
(src/vm/vm.rs) asserts `ctx.call_stack == vec![1]` on exactly the bytecode
below, and the spec says the pushed return address is the automatically
advanced IP; the code pushes `0`. -/

/-- The state of the repository's own Call test: `[Call 2, PushConst 99,
Return]` about to execute the `Call` at index 0. -/
def c1_state : VMState :=
  VMState.mkNew [.call 2, .pushConst (.integer 99), .ret]

/-- State after the `Call`: IP 2 and return address 0 on the call stack. -/
def c1_after : VMState :=
  ⟨⟨[], [], 2, [0], [.call 2, .pushConst (.integer 99), .ret]⟩, Heap.mkNew, ⟨[], false⟩⟩

/-- C1: executing `Call(2)` fetched at index 0 pushes return address `0`
(the index of the `Call` itself) — not `1` as the claim, the spec and the
repository's own test demand — and the subsequent `Return` therefore sets
the IP back to the `Call` itself (state `c1_state` again), re-executing it
forever instead of resuming after it. -/
theorem C1_call_return_address_bug :
    step c1_state = .ok c1_after ∧
    c1_after.execution.call_stack = [0] ∧
    c1_after.execution.call_stack ≠ [1] ∧
    c1_after.execution.ip = 2 ∧
    step c1_after = .ok c1_state := by decide

/-! ### Concrete counterexample states for C2, C4, C5, C6, C8 -/

/-- Bytecode of length 1, `Boolean(true)` on the stack, target 2. -/
def c2_cex_state : VMState :=
  ⟨⟨[.boolean true], [], 0, [], [.jumpIfFalse 2]⟩, Heap.mkNew, ⟨[], false⟩⟩

/-- C2 counterexample: `JumpIfFalse` with `Boolean(true)` on top succeeds
although its target 2 exceeds the instruction length 1, refuting the claimed
equivalence "succeeds iff t ≤ n" for `JumpIfFalse`. -/
theorem C2_counterexample :
    (execute (.jumpIfFalse 2) c2_cex_state).isOk = true ∧
    ¬(2 ≤ c2_cex_state.execution.bytecode.length) := by decide

/-- An open mailbox that yields `Reference(5)` over an empty heap. -/
def c4_cex_state : VMState :=
  ⟨⟨[], [], 0, [], [.receiveMessage]⟩, Heap.mkNew, ⟨[.reference 5], false⟩⟩

/-- The faulting state: the message has been dequeued. -/
def c4_cex_after : VMState :=
  ⟨⟨[], [], 0, [], [.receiveMessage]⟩, Heap.mkNew, ⟨[], false⟩⟩

/-- C4 counterexample: `ReceiveMessage` faults `InvalidReference` (not
`MailboxEmpty`) when the mailbox yields a `Reference` that does not resolve
in the heap, and the mailbox was neither closed nor empty beforehand. -/
theorem C4_counterexample :
    execute .receiveMessage c4_cex_state = .fault .invalidReference c4_cex_after ∧
    VmError.invalidReference ≠ VmError.mailboxEmpty ∧
    c4_cex_state.mailbox.closed = false ∧
    c4_cex_state.mailbox.queue ≠ [] := by decide

/-- A dangling `Reference(7)` on top of the stack over an empty heap. -/
def c5_cex_state : VMState :=
  ⟨⟨[.reference 7], [], 0, [], [.jumpIfFalse 0]⟩, Heap.mkNew, ⟨[], false⟩⟩

/-- The faulting state: the reference has been popped. -/
def c5_cex_after : VMState :=
  ⟨⟨[], [], 0, [], [.jumpIfFalse 0]⟩, Heap.mkNew, ⟨[], false⟩⟩

/-- C5 counterexample: `JumpIfFalse` popping a non-boolean that is a
dangling `Reference` faults `InvalidReference`, not the claimed
`TypeMismatch("JumpIfFalse")`. -/
theorem C5_counterexample :
    execute (.jumpIfFalse 0) c5_cex_state = .fault .invalidReference c5_cex_after ∧
    VmError.invalidReference ≠ VmError.typeMismatch "JumpIfFalse" := by decide

/-- A self-jump: `Jump(0)` at instruction index 0. -/
def c6_cex_state : VMState :=
  ⟨⟨[], [], 0, [], [.jump 0]⟩, Heap.mkNew, ⟨[], false⟩⟩

/-- State after the self-jump: the conditional auto-advance fires. -/
def c6_cex_after : VMState :=
  ⟨⟨[], [], 1, [], [.jump 0]⟩, Heap.mkNew, ⟨[], false⟩⟩

/-- C6 counterexample: `Jump(0)` fetched at index 0 with target `0 ≤ len`
succeeds but leaves the IP at 1, not at the target 0: because the
instruction left the IP numerically unchanged, `step`'s conditional
auto-advance fires afterwards. -/
theorem C6_counterexample :
    step c6_cex_state = .ok c6_cex_after ∧
    c6_cex_after.execution.ip = 1 ∧
    (1 : Nat) ≠ 0 ∧
    0 ≤ c6_cex_state.execution.bytecode.length := by decide

/-- Operands `2` (base) and `31` (exponent) for `Exp`. -/
def c8_cex_state : VMState :=
  ⟨⟨[.integer 31, .integer 2], [], 0, [], [.exp]⟩, Heap.mkNew, ⟨[], false⟩⟩

/-- Result state: the power has wrapped to `i32::MIN`. -/
def c8_cex_after : VMState :=
  ⟨⟨[.integer (-2147483648)], [], 0, [], [.exp]⟩, Heap.mkNew, ⟨[], false⟩⟩

/-- C8 counterexample: `2 31 Exp` wraps in `i32` and yields
`Integer(-2147483648)`, not `Integer(2^31)` — the claimed "Integer(x raised
to y)" fails once the power leaves `i32` range. -/
theorem C8_counterexample :
    execute .exp c8_cex_state = .ok c8_cex_after ∧
    c8_cex_after.execution.stack = [.integer (-2147483648)] ∧
    Value.integer (-2147483648) ≠ Value.integer (2 ^ 31) := by decide

/-! ### C2 — branch-target success conditions (amended) -/

theorem increment_reference_alloc (h : Heap) (o : HeapObject) :
    increment_reference (h.allocate o).1 (h.allocate o).2 =
      .ok ⟨(h.next_address, o.increment_ref) :: h.objects, h.next_address + 1⟩ := by
  simp [increment_reference, Heap.allocate, Heap.get, findObj, updateObj]

/-- C2 (amended): over every starting stack and heap state, `Jump(t)`
succeeds iff `t ≤ n`, and `Call(t)`, `SpawnActor(t)`, `SpawnSupervisor(t)`
succeed iff `t < n`; for `JumpIfFalse(t)` the claimed equivalence with
`t ≤ n` holds when the popped value is `Boolean(false)`, but not in
general (see the counterexample: `Boolean(true)` succeeds for every `t`). -/
theorem C2_amended_branch_targets :
    (∀ (s : VMState) (t : Nat),
        (execute (.jump t) s).isOk = true ↔ t ≤ s.execution.bytecode.length) ∧
    (∀ (s : VMState) (t : Nat),
        (execute (.call t) s).isOk = true ↔ t < s.execution.bytecode.length) ∧
    (∀ (s : VMState) (t : Nat),
        (execute (.spawnActor t) s).isOk = true ↔ t < s.execution.bytecode.length) ∧
    (∀ (s : VMState) (t : Nat),
        (execute (.spawnSupervisor t) s).isOk = true ↔ t < s.execution.bytecode.length) ∧
    (∀ (s : VMState) (t : Nat) (rest : List Value),
        s.execution.stack = .boolean false :: rest →
        ((execute (.jumpIfFalse t) s).isOk = true ↔ t ≤ s.execution.bytecode.length)) := by
  refine ⟨?_, ?_, ?_, ?_, ?_⟩
  · intro s t
    simp only [execute]
    split <;> simp [StepOutcome.isOk] <;> omega
  · intro s t
    simp only [execute]
    split <;> simp [StepOutcome.isOk] <;> omega
  · intro s t
    simp only [execute]
    split
    · simp [StepOutcome.isOk]; omega
    · rename_i h
      simp only [push_value, increment_reference_alloc]
      simp [StepOutcome.isOk]; omega
  · intro s t
    simp only [execute]
    split
    · simp [StepOutcome.isOk]; omega
    · rename_i h
      simp only [push_value, increment_reference_alloc]
      simp [StepOutcome.isOk]; omega
  · intro s t rest hstack
    simp only [execute, pop_value, hstack]
    split <;> simp [StepOutcome.isOk] <;> omega

/-- A `Boolean(false)` on the stack with an in-range target. -/
def c2_wit_state : VMState :=
  ⟨⟨[.boolean false], [], 0, [], [.jumpIfFalse 1]⟩, Heap.mkNew, ⟨[], false⟩⟩

/-- Witness for C2 at concrete inputs: `Jump(1)` and
`JumpIfFalse(1)`-on-false succeed over a length-1 bytecode. -/
theorem C2_witness :
    (execute (.jump 1) c2_wit_state).isOk = true ∧
    (execute (.jumpIfFalse 1) c2_wit_state).isOk = true :=
  ⟨(C2_amended_branch_targets.1 c2_wit_state 1).mpr (by decide),
   (C2_amended_branch_targets.2.2.2.2 c2_wit_state 1 [] rfl).mpr (by decide)⟩

/-! ### C5 — JumpIfFalse pop discipline (amended) -/

/-- C5 (amended): `JumpIfFalse` pops before classifying.  When the popped
value is neither `Boolean(false)` nor `Boolean(true)`, the instruction
faults `TypeMismatch("JumpIfFalse")` — provided the value is not a dangling
`Reference`, which instead faults `InvalidReference` (see the
counterexample).  In every case the value has been removed from the stack,
and a popped `Reference` to a live heap object has its count decremented
exactly once. -/
theorem C5_amended_jumpIfFalse_pop_discipline :
    (∀ (s : VMState) (t : Nat) (v : Value) (rest : List Value),
        s.execution.stack = v :: rest →
        (∀ b, v ≠ .boolean b) → (∀ a, v ≠ .reference a) →
        execute (.jumpIfFalse t) s =
          .fault (.typeMismatch "JumpIfFalse")
            { s with execution := { s.execution with stack := rest } }) ∧
    (∀ (s : VMState) (t : Nat) (a : Nat) (rest : List Value) (o : HeapObject),
        s.execution.stack = .reference a :: rest →
        s.heap.get a = some o → 0 < o.refCount →
        ∃ s', execute (.jumpIfFalse t) s = .fault (.typeMismatch "JumpIfFalse") s' ∧
          s'.execution.stack = rest ∧
          heap_ref_count s'.heap a = some (o.refCount - 1)) ∧
    (∀ (s : VMState) (t : Nat) (a : Nat) (rest : List Value),
        s.execution.stack = .reference a :: rest →
        s.heap.get a = none →
        execute (.jumpIfFalse t) s =
          .fault .invalidReference
            { s with execution := { s.execution with stack := rest } }) := by
  refine ⟨?_, ?_, ?_⟩
  · intro s t v rest hstack hb ha
    cases v with
    | integer i => simp [execute, pop_value, hstack]
    | float q => simp [execute, pop_value, hstack]
    | boolean b => exact absurd rfl (hb b)
    | reference a => exact absurd rfl (ha a)
    | null => simp [execute, pop_value, hstack]
  · intro s t a rest o hstack hget hlive
    have hget' : findObj s.heap.objects a = some o := hget
    refine ⟨{ s with
        execution := { s.execution with stack := rest },
        heap := ⟨updateObj s.heap.objects a o.decrement_ref, s.heap.next_address⟩ }, ?_, rfl, ?_⟩
    · simp [execute, pop_value, decrement_reference, Heap.get, hstack, hget']
    · simp [heap_ref_count, Heap.get, findObj_updateObj, hget',
        HeapObject.refCount_decrement]
  · intro s t a rest hstack hget
    have hget' : findObj s.heap.objects a = none := hget
    simp [execute, pop_value, decrement_reference, Heap.get, hstack, hget']

/-- A live `Reference(0)` (count 2) on the stack for `JumpIfFalse`. -/
def c5_wit_state : VMState :=
  ⟨⟨[.reference 0], [], 0, [], [.jumpIfFalse 0]⟩,
   ⟨[(0, .array [] 2)], 1⟩, ⟨[], false⟩⟩

/-- Witness for C5: a live reference popped by `JumpIfFalse` yields
`TypeMismatch("JumpIfFalse")` with the value removed and the count
decremented from 2 to 1. -/
theorem C5_witness :
    ∃ s', execute (.jumpIfFalse 0) c5_wit_state =
        .fault (.typeMismatch "JumpIfFalse") s' ∧
      s'.execution.stack = [] ∧
      heap_ref_count s'.heap 0 = some 1 :=
  C5_amended_jumpIfFalse_pop_discipline.2.1 c5_wit_state 0 0 [] (.array [] 2)
    rfl rfl (by decide)

/-! ### C6 — Jump semantics at the step level (amended) -/

/-- C6 (amended): for `Jump(t)` fetched at instruction index `i` with
`t ≤ len`, the step succeeds; afterwards the IP equals `t` whenever
`t ≠ i`, while a self-jump (`t = i`) triggers the conditional auto-advance
and leaves the IP at `i + 1` (see the counterexample).  With `t > len` the
step faults `ExecutionOutOfBounds` and the state — in particular the IP —
is unchanged. -/
theorem C6_amended_jump_step (s : VMState) (t : Nat)
    (hfetch : s.execution.bytecode.get? s.execution.ip = some (.jump t)) :
    (t ≤ s.execution.bytecode.length → t ≠ s.execution.ip →
      step s = .ok { s with execution := { s.execution with ip := t } }) ∧
    (t = s.execution.ip →
      step s = .ok { s with execution := { s.execution with ip := t + 1 } }) ∧
    (s.execution.bytecode.length < t →
      step s = .fault .executionOutOfBounds s) := by
  rw [List.get?_eq_some] at hfetch
  obtain ⟨hlt, hget⟩ := hfetch
  refine ⟨?_, ?_, ?_⟩
  · intro hle hne
    unfold step
    rw [dif_pos hlt, hget]
    simp only [execute]
    rw [if_neg (by omega)]
    simp [hne]
  · intro heq
    unfold step
    rw [dif_pos hlt, hget]
    simp only [execute]
    rw [if_neg (by omega)]
    simp [heq]
  · intro hgt
    unfold step
    rw [dif_pos hlt, hget]
    simp only [execute]
    rw [if_pos hgt]

/-- `Jump(1)` at index 0 of a length-1 bytecode. -/
def c6_wit_state : VMState :=
  ⟨⟨[], [], 0, [], [.jump 1]⟩, Heap.mkNew, ⟨[], false⟩⟩

/-- Witness for C6 at a concrete input: `Jump(1)` at index 0 ends with the
IP exactly at the target 1 (a clean halt, as 1 = len). -/
theorem C6_witness :
    step c6_wit_state =
      .ok { c6_wit_state with execution := { c6_wit_state.execution with ip := 1 } } :=
  (C6_amended_jump_step c6_wit_state 1 rfl).1 (by decide) (by decide)

/-! ### C8 — Exp semantics (amended) -/

/-- C8 (amended): for Integer operands, a non-negative exponent yields
`Integer` of the power wrapped into `i32` (exact whenever the power lies in
`i32` range, as the second conjunct states; the counterexample shows the
wrap at `2^31`); a negative exponent yields a `Float` — the exact
reciprocal power in the rational float model, in particular `2 -3 Exp`
leaves `Float(1/8) = Float(0.125)`; `Float × Float` yields a `Float`;
every other operand pairing faults `TypeMismatch("Exp")`. -/
theorem C8_amended_exp :
    (∀ (s : VMState) (x y : Int) (rest : List Value),
        s.execution.stack = .integer y :: .integer x :: rest → 0 ≤ y →
        execute .exp s =
          .ok { s with execution :=
            { s.execution with stack := .integer (wrap32 (x ^ y.toNat)) :: rest } }) ∧
    (∀ n : Int, -(2 ^ 31) ≤ n → n < 2 ^ 31 → wrap32 n = n) ∧
    (∀ (s : VMState) (x y : Int) (rest : List Value),
        s.execution.stack = .integer y :: .integer x :: rest → y < 0 →
        execute .exp s =
          .ok { s with execution :=
            { s.execution with stack := .float (powiQ x y) :: rest } }) ∧
    (∀ (s : VMState) (rest : List Value),
        s.execution.stack = .integer (-3) :: .integer 2 :: rest →
        execute .exp s =
          .ok { s with execution :=
            { s.execution with stack := .float ((1 : ℚ)/8) :: rest } }) ∧
    (∀ (s : VMState) (x y : ℚ) (rest : List Value),
        s.execution.stack = .float y :: .float x :: rest →
        execute .exp s =
          .ok { s with execution :=
            { s.execution with stack := .float (powfQ x y) :: rest } }) ∧
    (∀ (s : VMState) (v w : Value) (rest : List Value),
        s.execution.stack = w :: v :: rest →
        (∀ i j : Int, ¬(v = .integer i ∧ w = .integer j)) →
        (∀ p q : ℚ, ¬(v = .float p ∧ w = .float q)) →
        execute .exp s =
          .fault (.typeMismatch "Exp")
            { s with execution := { s.execution with stack := rest } }) := by
  refine ⟨?_, ?_, ?_, ?_, ?_, ?_⟩
  · intro s x y rest hstack hy
    simp [execute, binary_op, hstack, if_neg (by omega : ¬y < 0)]
  · intro n h1 h2
    unfold wrap32
    omega
  · intro s x y rest hstack hy
    simp [execute, binary_op, hstack, if_pos hy]
  · intro s rest hstack
    have h3 : Int.toNat 3 = 3 := rfl
    have h : powiQ 2 (-3) = (1 : ℚ)/8 := by
      norm_num [powiQ, h3]
    simp [execute, binary_op, hstack, if_pos (by norm_num : (-3 : Int) < 0), h]
  · intro s x y rest hstack
    simp [execute, binary_op, hstack]
  · intro s v w rest hstack hi hf
    cases v <;> cases w <;>
      first
        | exact absurd ⟨rfl, rfl⟩ (hi _ _)
        | exact absurd ⟨rfl, rfl⟩ (hf _ _)
        | simp [execute, binary_op, hstack]

/-! ### Evaluation lemmas for `pop_value` -/

theorem decrement_ref_actor (c : ChildVM) (rc : Nat) :
    (HeapObject.actor c rc).decrement_ref = .actor c (if 0 < rc then rc - 1 else rc) := rfl

theorem increment_ref_actor (c : ChildVM) (rc : Nat) :
    (HeapObject.actor c rc).increment_ref = .actor c (rc + 1) := rfl

theorem pop_value_ref (s : VMState) (a : Nat) (rest : List Value) (o : HeapObject)
    (hstack : s.execution.stack = .reference a :: rest)
    (hget : s.heap.get a = some o) :
    pop_value s = .ok (.reference a,
      { s with execution := { s.execution with stack := rest },
               heap := ⟨updateObj s.heap.objects a o.decrement_ref,
                        s.heap.next_address⟩ }) := by
  have hget' : findObj s.heap.objects a = some o := hget
  simp [pop_value, hstack, decrement_reference, Heap.get, hget']

theorem pop_value_nonref (s : VMState) (v : Value) (rest : List Value)
    (hstack : s.execution.stack = v :: rest) (hv : ∀ a, v ≠ .reference a) :
    pop_value s = .ok (v, { s with execution := { s.execution with stack := rest } }) := by
  cases v with
  | integer i => simp [pop_value, hstack]
  | float q => simp [pop_value, hstack]
  | boolean b => simp [pop_value, hstack]
  | reference a => exact absurd rfl (hv a)
  | null => simp [pop_value, hstack]

/-- The `2 -3 Exp` operand state. -/
def c8_wit_state : VMState :=
  ⟨⟨[.integer (-3), .integer 2], [], 0, [], [.exp]⟩, Heap.mkNew, ⟨[], false⟩⟩

/-- Witness for C8 at the spec's concrete program: `2 -3 Exp` leaves
`Float(1/8)` (= 0.125) on top of the stack. -/
theorem C8_witness :
    execute .exp c8_wit_state =
      .ok { c8_wit_state with execution :=
        { c8_wit_state.execution with stack := [.float ((1 : ℚ)/8)] } } :=
  C8_amended_exp.2.2.2.1 c8_wit_state [] rfl

/-! ### C10 — SendMessage rejects Supervisor targets -/

/-- C10: when `SendMessage` pops a `Reference` whose heap address resolves
to a `Supervisor` object (which also carries a mailbox sender) rather than
an `Actor`, the instruction faults `InvalidReference`; the actor-reference
and the message have both been popped. -/
theorem C10_send_to_supervisor_invalid (s : VMState) (a : Nat) (msg : Value)
    (rest : List Value) (child : ChildVM) (rc : Nat)
    (hstack : s.execution.stack = .reference a :: msg :: rest)
    (hsup : s.heap.get a = some (.supervisor child rc))
    (hres : ∀ m, msg = .reference m → (s.heap.get m).isSome = true) :
    ∃ s', execute .sendMessage s = .fault .invalidReference s' ∧
      s'.execution.stack = rest := by
  have hsup' : findObj s.heap.objects a = some (.supervisor child rc) := hsup
  cases msg with
  | reference m =>
      by_cases hma : m = a
      · subst hma
        simp [execute, pop_value, decrement_reference, Heap.get, hstack,
          findObj_updateObj, hsup', HeapObject.decrement_ref]
      · obtain ⟨om, hom⟩ := Option.isSome_iff_exists.mp (hres m rfl)
        have hom' : findObj s.heap.objects m = some om := hom
        have ham : ¬a = m := fun h => hma h.symm
        simp [execute, pop_value, decrement_reference, Heap.get, hstack,
          findObj_updateObj, hsup', hom', hma, ham, HeapObject.decrement_ref]
  | integer i =>
      simp [execute, pop_value, decrement_reference, Heap.get, hstack,
        findObj_updateObj, hsup', HeapObject.decrement_ref]
  | float q =>
      simp [execute, pop_value, decrement_reference, Heap.get, hstack,
        findObj_updateObj, hsup', HeapObject.decrement_ref]
  | boolean b =>
      simp [execute, pop_value, decrement_reference, Heap.get, hstack,
        findObj_updateObj, hsup', HeapObject.decrement_ref]
  | null =>
      simp [execute, pop_value, decrement_reference, Heap.get, hstack,
        findObj_updateObj, hsup', HeapObject.decrement_ref]

/-- A supervisor at address 0 targeted by a `SendMessage` of `Integer 42`. -/
def c10_wit_state : VMState :=
  ⟨⟨[.reference 0, .integer 42], [], 0, [], [.sendMessage]⟩,
   ⟨[(0, .supervisor ⟨0, [], [], false⟩ 1)], 1⟩, ⟨[], false⟩⟩

/-- Witness for C10 at a concrete input. -/
theorem C10_witness :
    ∃ s', execute .sendMessage c10_wit_state = .fault .invalidReference s' ∧
      s'.execution.stack = [] :=
  C10_send_to_supervisor_invalid c10_wit_state 0 (.integer 42) [] ⟨0, [], [], false⟩ 1
    rfl rfl (by intro m h; cases h)

/-! ### C3 — SendMessage failure keeps the message alive -/

/-- The error of a faulting outcome. -/
def StepOutcome.faultErr : StepOutcome → Option VmError
  | .fault e _ => some e
  | _ => none

/-- The operand stack at the moment of a fault. -/
def StepOutcome.faultStack : StepOutcome → Option (List Value)
  | .fault _ s => some s.execution.stack
  | _ => none

/-- The reference count of heap address `a` at the moment of a fault. -/
def StepOutcome.faultRefCount (a : Nat) : StepOutcome → Option (Option Nat)
  | .fault _ s => some (heap_ref_count s.heap a)
  | _ => none

/-- C3: when `SendMessage` pops a valid `Actor` reference whose mailbox is
closed, the instruction faults `ChannelSend` carrying the undelivered
message value (with both operands popped), and a `Reference` message's
count is re-incremented for the error's ownership: a count `c ≥ 1` before
the instruction is still `c` at the fault — in particular a count of 1
stays 1, one above its stack-drop level. -/
theorem C3_send_failure_keeps_message (s : VMState) (a : Nat) (msg : Value)
    (rest : List Value) (child : ChildVM) (rc : Nat)
    (hstack : s.execution.stack = .reference a :: msg :: rest)
    (hactor : s.heap.get a = some (.actor child rc))
    (hclosed : child.closed = true)
    (hres : ∀ m, msg = .reference m → (s.heap.get m).isSome = true) :
    (execute .sendMessage s).faultErr = some (.channelSend "channel closed" msg) ∧
    (execute .sendMessage s).faultStack = some rest ∧
    (∀ (m c : Nat), msg = .reference m → m ≠ a →
      heap_ref_count s.heap m = some c → 0 < c →
      (execute .sendMessage s).faultRefCount m = some (some c)) := by
  have hactor' : findObj s.heap.objects a = some (.actor child rc) := hactor
  cases msg with
  | reference m =>
      by_cases hma : m = a
      · subst hma
        refine ⟨?_, ?_, ?_⟩
        · simp [execute, pop_value, decrement_reference, increment_reference, Heap.get,
            hstack, findObj_updateObj, hactor', HeapObject.decrement_ref,
            HeapObject.increment_ref, hclosed, StepOutcome.faultErr]
        · simp [execute, pop_value, decrement_reference, increment_reference, Heap.get,
            hstack, findObj_updateObj, hactor', HeapObject.decrement_ref,
            HeapObject.increment_ref, hclosed, StepOutcome.faultStack]
        · intro m' c heq hne hcnt hpos
          injection heq with h
          exact absurd h.symm hne
      · obtain ⟨om, hom⟩ := Option.isSome_iff_exists.mp (hres m rfl)
        have hom' : findObj s.heap.objects m = some om := hom
        have ham : ¬a = m := fun h => hma h.symm
        refine ⟨?_, ?_, ?_⟩
        · simp [execute, pop_value, decrement_reference, increment_reference, Heap.get,
            hstack, findObj_updateObj, hactor', hom', hma, ham,
            HeapObject.decrement_ref, HeapObject.increment_ref, hclosed,
            StepOutcome.faultErr]
        · simp [execute, pop_value, decrement_reference, increment_reference, Heap.get,
            hstack, findObj_updateObj, hactor', hom', hma, ham,
            HeapObject.decrement_ref, HeapObject.increment_ref, hclosed,
            StepOutcome.faultStack]
        · intro m' c heq hne hcnt hpos
          injection heq with h
          subst h
          have homc : om.refCount = c := by
            simp [heap_ref_count, Heap.get, hom'] at hcnt
            exact hcnt
          simp [execute, pop_value, decrement_reference, increment_reference, Heap.get,
            hstack, findObj_updateObj, hactor', hom', hma, ham,
            decrement_ref_actor, hclosed, StepOutcome.faultRefCount,
            heap_ref_count, HeapObject.refCount_increment, HeapObject.refCount_decrement,
            homc]
          omega
  | integer i =>
      refine ⟨?_, ?_, fun m c heq => absurd heq (by simp)⟩ <;>
        simp [execute, pop_value, decrement_reference, increment_reference, Heap.get,
          hstack, findObj_updateObj, hactor', HeapObject.decrement_ref, hclosed,
          StepOutcome.faultErr, StepOutcome.faultStack]
  | float q =>
      refine ⟨?_, ?_, fun m c heq => absurd heq (by simp)⟩ <;>
        simp [execute, pop_value, decrement_reference, increment_reference, Heap.get,
          hstack, findObj_updateObj, hactor', HeapObject.decrement_ref, hclosed,
          StepOutcome.faultErr, StepOutcome.faultStack]
  | boolean b =>
      refine ⟨?_, ?_, fun m c heq => absurd heq (by simp)⟩ <;>
        simp [execute, pop_value, decrement_reference, increment_reference, Heap.get,
          hstack, findObj_updateObj, hactor', HeapObject.decrement_ref, hclosed,
          StepOutcome.faultErr, StepOutcome.faultStack]
  | null =>
      refine ⟨?_, ?_, fun m c heq => absurd heq (by simp)⟩ <;>
        simp [execute, pop_value, decrement_reference, increment_reference, Heap.get,
          hstack, findObj_updateObj, hactor', HeapObject.decrement_ref, hclosed,
          StepOutcome.faultErr, StepOutcome.faultStack]

/-- A closed actor at address 0 and an `Array` message at address 1 with
count 1, mirroring the repository's `test_send_message_failure`. -/
def c3_wit_state : VMState :=
  ⟨⟨[.reference 0, .reference 1], [], 0, [], [.sendMessage]⟩,
   ⟨[(0, .actor ⟨0, [], [], true⟩ 1), (1, .array [] 1)], 2⟩, ⟨[], false⟩⟩

/-- Witness for C3 at the repository's own send-failure test scenario: the
fault carries `Reference(1)` and that message's count is still 1. -/
theorem C3_witness :
    (execute .sendMessage c3_wit_state).faultErr =
      some (.channelSend "channel closed" (.reference 1)) ∧
    (execute .sendMessage c3_wit_state).faultStack = some [] ∧
    (execute .sendMessage c3_wit_state).faultRefCount 1 = some (some 1) := by
  have h := C3_send_failure_keeps_message c3_wit_state 0 (.reference 1) []
    ⟨0, [], [], true⟩ 1 rfl rfl rfl (by intro m hm; injection hm with hm'; subst hm'; rfl)
  exact ⟨h.1, h.2.1, h.2.2 1 1 rfl (by decide) (by decide) (by decide)⟩

/-! ### C4 — ReceiveMessage fault modes (amended) -/

/-- C4 (amended): every `ReceiveMessage` fault is either `MailboxEmpty` —
in which case the mailbox was closed and empty immediately before — or
`InvalidReference`, which happens exactly when the mailbox yielded a
`Reference` message that does not resolve in the heap (see the
counterexample); for any message that is not a dangling reference the only
failure mode is `MailboxEmpty` on a closed, drained mailbox. -/
theorem C4_amended_receive_fault_modes (s : VMState) (e : VmError) (s' : VMState)
    (h : execute .receiveMessage s = .fault e s') :
    (e = .mailboxEmpty ∧ s.mailbox.queue = [] ∧ s.mailbox.closed = true) ∨
    (e = .invalidReference ∧
      ∃ m rest, s.mailbox.queue = .reference m :: rest ∧ s.heap.get m = none) := by
  rcases hq : s.mailbox.queue with _ | ⟨message, rest⟩
  · by_cases hc : s.mailbox.closed
    · left
      simp only [execute, hq, if_pos hc] at h
      exact ⟨(StepOutcome.fault.inj h).1.symm, rfl, hc⟩
    · exfalso
      simp [execute, hq, hc] at h
  · cases message with
    | reference m =>
        rcases hg : s.heap.get m with _ | o
        · right
          have hg' : findObj s.heap.objects m = none := hg
          simp only [execute, hq] at h
          simp only [decrement_reference, Heap.get, hg'] at h
          exact ⟨(StepOutcome.fault.inj h).1.symm, m, rest, rfl, hg⟩
        · exfalso
          have hg' : findObj s.heap.objects m = some o := hg
          simp [execute, hq, decrement_reference, increment_reference, push_value,
            Heap.get, hg', findObj_updateObj] at h
    | integer i =>
        exfalso
        simp [execute, hq, push_value] at h
    | float q =>
        exfalso
        simp [execute, hq, push_value] at h
    | boolean b =>
        exfalso
        simp [execute, hq, push_value] at h
    | null =>
        exfalso
        simp [execute, hq, push_value] at h

/-- A closed, drained mailbox. -/
def c4_wit_state : VMState :=
  ⟨⟨[], [], 0, [], [.receiveMessage]⟩, Heap.mkNew, ⟨[], true⟩⟩

/-- Witness for C4 at a concrete input: the fault on a closed empty mailbox
is classified by the amended theorem. -/
theorem C4_witness :
    (VmError.mailboxEmpty = VmError.mailboxEmpty ∧
      c4_wit_state.mailbox.queue = [] ∧ c4_wit_state.mailbox.closed = true) ∨
    (VmError.mailboxEmpty = VmError.invalidReference ∧
      ∃ m rest, c4_wit_state.mailbox.queue = .reference m :: rest ∧
        c4_wit_state.heap.get m = none) :=
  C4_amended_receive_fault_modes c4_wit_state .mailboxEmpty c4_wit_state rfl

/-! ### C7 — run-loop IP invariant

The frame lemmas below record that the stack/heap helpers never touch the
instruction pointer, the call stack or the bytecode; the master lemma
`execute_ok_frame` then bounds the IP and the call stack across every
instruction, and the run-loop lemmas lift this to `VM::run`. -/

theorem push_value_frame (s : VMState) (v : Value) (s' : VMState)
    (h : push_value s v = .ok s') :
    s'.execution.ip = s.execution.ip ∧
    s'.execution.call_stack = s.execution.call_stack ∧
    s'.execution.bytecode = s.execution.bytecode := by
  cases v <;> simp only [push_value] at h
  case reference a =>
    split at h
    · cases h
      exact ⟨rfl, rfl, rfl⟩
    · cases h
  all_goals (cases h; exact ⟨rfl, rfl, rfl⟩)

theorem pop_value_frame (s : VMState) (v : Value) (s' : VMState)
    (h : pop_value s = .ok (v, s')) :
    s'.execution.ip = s.execution.ip ∧
    s'.execution.call_stack = s.execution.call_stack ∧
    s'.execution.bytecode = s.execution.bytecode := by
  simp only [pop_value] at h
  repeat' split at h
  all_goals cases h
  all_goals exact ⟨rfl, rfl, rfl⟩

theorem binary_op_frame (s : VMState) (f : Value → Value → Except VmError Value)
    (s' : VMState) (h : binary_op s f = .ok s') :
    s'.execution.ip = s.execution.ip ∧
    s'.execution.call_stack = s.execution.call_stack ∧
    s'.execution.bytecode = s.execution.bytecode := by
  simp only [binary_op] at h
  repeat' split at h
  all_goals cases h
  all_goals exact ⟨rfl, rfl, rfl⟩

theorem unary_op_frame (s : VMState) (f : Value → Except VmError Value)
    (s' : VMState) (h : unary_op s f = .ok s') :
    s'.execution.ip = s.execution.ip ∧
    s'.execution.call_stack = s.execution.call_stack ∧
    s'.execution.bytecode = s.execution.bytecode := by
  simp only [unary_op] at h
  repeat' split at h
  all_goals cases h
  all_goals exact ⟨rfl, rfl, rfl⟩

/-- Master preservation lemma: a successful instruction keeps the bytecode,
keeps every call-stack entry strictly below the instruction count, and
either leaves the IP unchanged or moves it to at most the instruction
count. -/
theorem execute_ok_frame (op : OpCode) (s s' : VMState)
    (hok : execute op s = .ok s')
    (hcs : ∀ r ∈ s.execution.call_stack, r < s.execution.bytecode.length)
    (hip : s.execution.ip < s.execution.bytecode.length) :
    s'.execution.bytecode = s.execution.bytecode ∧
    (∀ r ∈ s'.execution.call_stack, r < s.execution.bytecode.length) ∧
    (s'.execution.ip = s.execution.ip ∨
      s'.execution.ip ≤ s.execution.bytecode.length) := by
  cases op with
  | add =>
      obtain ⟨hi, hc, hb⟩ := binary_op_frame s _ s' hok
      exact ⟨hb, fun r hr => hcs r (hc ▸ hr), Or.inl hi⟩
  | sub =>
      obtain ⟨hi, hc, hb⟩ := binary_op_frame s _ s' hok
      exact ⟨hb, fun r hr => hcs r (hc ▸ hr), Or.inl hi⟩
  | mul =>
      obtain ⟨hi, hc, hb⟩ := binary_op_frame s _ s' hok
      exact ⟨hb, fun r hr => hcs r (hc ▸ hr), Or.inl hi⟩
  | div =>
      obtain ⟨hi, hc, hb⟩ := binary_op_frame s _ s' hok
      exact ⟨hb, fun r hr => hcs r (hc ▸ hr), Or.inl hi⟩
  | mod =>
      obtain ⟨hi, hc, hb⟩ := binary_op_frame s _ s' hok
      exact ⟨hb, fun r hr => hcs r (hc ▸ hr), Or.inl hi⟩
  | exp =>
      obtain ⟨hi, hc, hb⟩ := binary_op_frame s _ s' hok
      exact ⟨hb, fun r hr => hcs r (hc ▸ hr), Or.inl hi⟩
  | neg =>
      obtain ⟨hi, hc, hb⟩ := unary_op_frame s _ s' hok
      exact ⟨hb, fun r hr => hcs r (hc ▸ hr), Or.inl hi⟩
  | pushConst v =>
      simp only [execute] at hok
      split at hok
      all_goals cases hok
      rename push_value _ _ = _ => heqp
      obtain ⟨hi, hc, hb⟩ := push_value_frame _ _ _ heqp
      exact ⟨hb, fun r hr => hcs r (hc ▸ hr), Or.inl hi⟩
  | pop =>
      rcases hpop : pop_value s with ⟨e, sE⟩ | ⟨v, s1⟩
      · simp only [execute, hpop] at hok
        cases hok
      · obtain ⟨hi, hc, hb⟩ := pop_value_frame _ _ _ hpop
        simp only [execute, hpop] at hok
        cases hok
        exact ⟨hb, fun r hr => hcs r (hc ▸ hr), Or.inl hi⟩
  | dup =>
      simp only [execute] at hok
      split at hok
      · split at hok
        all_goals cases hok
        rename push_value _ _ = _ => heqp
        obtain ⟨hi, hc, hb⟩ := push_value_frame _ _ _ heqp
        exact ⟨hb, fun r hr => hcs r (hc ▸ hr), Or.inl hi⟩
      · cases hok
  | swap =>
      simp only [execute] at hok
      split at hok
      · cases hok
        exact ⟨rfl, hcs, Or.inl rfl⟩
      · cases hok
  | storeVar i =>
      rcases hpop : pop_value s with ⟨e, sE⟩ | ⟨value, s1⟩
      · simp only [execute, hpop] at hok
        cases hok
      · obtain ⟨hi1, hc1, hb1⟩ := pop_value_frame _ _ _ hpop
        simp only [execute, hpop] at hok
        repeat' split at hok
        all_goals cases hok
        all_goals exact ⟨hb1, fun r hr => hcs r (hc1 ▸ hr), Or.inl hi1⟩
  | loadVar i =>
      simp only [execute] at hok
      split at hok
      · split at hok
        all_goals cases hok
        rename push_value _ _ = _ => heqp
        obtain ⟨hi, hc, hb⟩ := push_value_frame _ _ _ heqp
        exact ⟨hb, fun r hr => hcs r (hc ▸ hr), Or.inl hi⟩
      · cases hok
  | jump t =>
      simp only [execute] at hok
      by_cases hlt : s.execution.bytecode.length < t
      · rw [if_pos hlt] at hok
        cases hok
      · rw [if_neg hlt] at hok
        cases hok
        refine ⟨rfl, hcs, Or.inr ?_⟩
        show t ≤ _
        omega
  | jumpIfFalse t =>
      rcases hpop : pop_value s with ⟨e, sE⟩ | ⟨value, s1⟩
      · simp only [execute, hpop] at hok
        cases hok
      · obtain ⟨hi1, hc1, hb1⟩ := pop_value_frame _ _ _ hpop
        simp only [execute, hpop] at hok
        cases value with
        | boolean b =>
            cases b
            · by_cases hlt : s1.execution.bytecode.length < t
              · rw [if_pos hlt] at hok
                cases hok
              · rw [if_neg hlt] at hok
                cases hok
                refine ⟨hb1, fun r hr => hcs r (hc1 ▸ hr), Or.inr ?_⟩
                show t ≤ _
                rw [← hb1]
                omega
            · cases hok
              exact ⟨hb1, fun r hr => hcs r (hc1 ▸ hr), Or.inl hi1⟩
        | integer i => cases hok
        | float q => cases hok
        | reference a => cases hok
        | null => cases hok
  | call t =>
      simp only [execute] at hok
      by_cases hle : s.execution.bytecode.length ≤ t
      · rw [if_pos hle] at hok
        cases hok
      · rw [if_neg hle] at hok
        cases hok
        refine ⟨rfl, ?_, Or.inr ?_⟩
        · intro r hr
          rcases List.mem_cons.mp hr with h | h
          · omega
          · exact hcs r h
        · show t ≤ _
          omega
  | ret =>
      rcases hcseq : s.execution.call_stack with _ | ⟨r0, rest⟩
      · simp only [execute, hcseq] at hok
        cases hok
      · simp only [execute, hcseq] at hok
        cases hok
        have hr0 : r0 < s.execution.bytecode.length :=
          hcs r0 (hcseq ▸ List.mem_cons_self r0 rest)
        refine ⟨rfl, ?_, Or.inr ?_⟩
        · intro r hr
          exact hcs r (hcseq ▸ List.mem_cons_of_mem r0 hr)
        · show r0 ≤ _
          omega
  | receiveMessage =>
      rcases hq : s.mailbox.queue with _ | ⟨message, rest⟩
      · simp only [execute, hq] at hok
        by_cases hc : s.mailbox.closed
        · rw [if_pos hc] at hok
          cases hok
        · rw [if_neg hc] at hok
          cases hok
      · simp only [execute, hq] at hok
        split at hok
        · -- message is a reference
          split at hok
          · cases hok
          · split at hok
            all_goals cases hok
            rename push_value _ _ = _ => heqp
            obtain ⟨hi, hc, hb⟩ := push_value_frame _ _ _ heqp
            exact ⟨hb, fun r hr => hcs r (hc ▸ hr), Or.inl hi⟩
        · -- any other message
          split at hok
          all_goals cases hok
          rename push_value _ _ = _ => heqp
          obtain ⟨hi, hc, hb⟩ := push_value_frame _ _ _ heqp
          exact ⟨hb, fun r hr => hcs r (hc ▸ hr), Or.inl hi⟩
  | spawnActor entry =>
      simp only [execute] at hok
      by_cases hle : s.execution.bytecode.length ≤ entry
      · rw [if_pos hle] at hok
        cases hok
      · rw [if_neg hle] at hok
        split at hok
        all_goals cases hok
        rename push_value _ _ = _ => heqp
        obtain ⟨hi, hc, hb⟩ := push_value_frame _ _ _ heqp
        exact ⟨hb, fun r hr => hcs r (hc ▸ hr), Or.inl hi⟩
  | spawnSupervisor entry =>
      simp only [execute] at hok
      by_cases hle : s.execution.bytecode.length ≤ entry
      · rw [if_pos hle] at hok
        cases hok
      · rw [if_neg hle] at hok
        split at hok
        all_goals cases hok
        rename push_value _ _ = _ => heqp
        obtain ⟨hi, hc, hb⟩ := push_value_frame _ _ _ heqp
        exact ⟨hb, fun r hr => hcs r (hc ▸ hr), Or.inl hi⟩
  | sendMessage =>
      rcases hpop1 : pop_value s with ⟨e1, sE1⟩ | ⟨actor_ref, s1⟩
      · simp only [execute, hpop1] at hok
        cases hok
      · obtain ⟨hi1, hc1, hb1⟩ := pop_value_frame _ _ _ hpop1
        simp only [execute, hpop1] at hok
        rcases hpop2 : pop_value s1 with ⟨e2, sE2⟩ | ⟨message, s2⟩
        · simp only [hpop2] at hok
          cases hok
        · obtain ⟨hi2, hc2, hb2⟩ := pop_value_frame _ _ _ hpop2
          simp only [hpop2] at hok
          cases actor_ref with
          | reference address =>
              rcases hga : s2.heap.get address with _ | o2
              · simp only [hga] at hok
                cases hok
              · simp only [hga] at hok
                cases o2 with
                | actor child rc =>
                    cases message with
                    | reference ma =>
                        rcases hinc : increment_reference s2.heap ma with e3 | heap3
                        · simp only [hinc] at hok
                          cases hok
                        · simp only [hinc] at hok
                          rcases hg3 : heap3.get address with _ | o3
                          · rw [hg3] at hok
                            cases hok
                          · rw [hg3] at hok
                            cases o3 with
                            | actor child2 rc2 =>
                                simp only [] at hok
                                by_cases hcl : child2.closed = true
                                · rw [if_pos hcl] at hok
                                  cases hok
                                · rw [if_neg hcl] at hok
                                  by_cases hql : 100 ≤ child2.queue.length
                                  · rw [if_pos hql] at hok
                                    cases hok
                                  · rw [if_neg hql] at hok
                                    split at hok
                                    all_goals cases hok
                                    rename push_value _ _ = _ => heqp
                                    obtain ⟨hi5, hc5, hb5⟩ := push_value_frame _ _ _ heqp
                                    refine ⟨hb5.trans (hb2.trans hb1), fun r hr => ?_,
                                      Or.inl (hi5.trans (hi2.trans hi1))⟩
                                    exact hcs r (hc1 ▸ hc2 ▸ hc5 ▸ hr)
                            | array values rc2 => cases hok
                            | string str rc2 => cases hok
                            | module n ex rc2 => cases hok
                            | nativeFunction d rc2 => cases hok
                            | supervisor child2 rc2 => cases hok
                    | integer i =>
                        simp only [] at hok
                        rw [hga] at hok
                        simp only [] at hok
                        by_cases hcl : child.closed = true
                        · rw [if_pos hcl] at hok
                          cases hok
                        · rw [if_neg hcl] at hok
                          by_cases hql : 100 ≤ child.queue.length
                          · rw [if_pos hql] at hok
                            cases hok
                          · rw [if_neg hql] at hok
                            split at hok
                            all_goals cases hok
                            rename push_value _ _ = _ => heqp
                            obtain ⟨hi5, hc5, hb5⟩ := push_value_frame _ _ _ heqp
                            refine ⟨hb5.trans (hb2.trans hb1), fun r hr => ?_,
                              Or.inl (hi5.trans (hi2.trans hi1))⟩
                            exact hcs r (hc1 ▸ hc2 ▸ hc5 ▸ hr)
                    | float q =>
                        simp only [] at hok
                        rw [hga] at hok
                        simp only [] at hok
                        by_cases hcl : child.closed = true
                        · rw [if_pos hcl] at hok
                          cases hok
                        · rw [if_neg hcl] at hok
                          by_cases hql : 100 ≤ child.queue.length
                          · rw [if_pos hql] at hok
                            cases hok
                          · rw [if_neg hql] at hok
                            split at hok
                            all_goals cases hok
                            rename push_value _ _ = _ => heqp
                            obtain ⟨hi5, hc5, hb5⟩ := push_value_frame _ _ _ heqp
                            refine ⟨hb5.trans (hb2.trans hb1), fun r hr => ?_,
                              Or.inl (hi5.trans (hi2.trans hi1))⟩
                            exact hcs r (hc1 ▸ hc2 ▸ hc5 ▸ hr)
                    | boolean b =>
                        simp only [] at hok
                        rw [hga] at hok
                        simp only [] at hok
                        by_cases hcl : child.closed = true
                        · rw [if_pos hcl] at hok
                          cases hok
                        · rw [if_neg hcl] at hok
                          by_cases hql : 100 ≤ child.queue.length
                          · rw [if_pos hql] at hok
                            cases hok
                          · rw [if_neg hql] at hok
                            split at hok
                            all_goals cases hok
                            rename push_value _ _ = _ => heqp
                            obtain ⟨hi5, hc5, hb5⟩ := push_value_frame _ _ _ heqp
                            refine ⟨hb5.trans (hb2.trans hb1), fun r hr => ?_,
                              Or.inl (hi5.trans (hi2.trans hi1))⟩
                            exact hcs r (hc1 ▸ hc2 ▸ hc5 ▸ hr)
                    | null =>
                        simp only [] at hok
                        rw [hga] at hok
                        simp only [] at hok
                        by_cases hcl : child.closed = true
                        · rw [if_pos hcl] at hok
                          cases hok
                        · rw [if_neg hcl] at hok
                          by_cases hql : 100 ≤ child.queue.length
                          · rw [if_pos hql] at hok
                            cases hok
                          · rw [if_neg hql] at hok
                            split at hok
                            all_goals cases hok
                            rename push_value _ _ = _ => heqp
                            obtain ⟨hi5, hc5, hb5⟩ := push_value_frame _ _ _ heqp
                            refine ⟨hb5.trans (hb2.trans hb1), fun r hr => ?_,
                              Or.inl (hi5.trans (hi2.trans hi1))⟩
                            exact hcs r (hc1 ▸ hc2 ▸ hc5 ▸ hr)
                | array values rc => cases hok
                | string str rc => cases hok
                | module n ex rc => cases hok
                | nativeFunction d rc => cases hok
                | supervisor child rc => cases hok
          | integer i => cases hok
          | float q => cases hok
          | boolean b => cases hok
          | null => cases hok
  | setStrategy code =>
      rcases hpop : pop_value s with ⟨e, sE⟩ | ⟨sup_ref, s1⟩
      · simp only [execute, hpop] at hok
        cases hok
      · obtain ⟨hi1, hc1, hb1⟩ := pop_value_frame _ _ _ hpop
        simp only [execute, hpop] at hok
        repeat' split at hok
        all_goals cases hok
        all_goals rename push_value _ _ = _ => heqp
        all_goals (
          obtain ⟨hi2, hc2, hb2⟩ := push_value_frame _ _ _ heqp
          exact ⟨hb2.trans hb1, fun r hr => hcs r (hc1 ▸ hc2 ▸ hr),
            Or.inl (hi2.trans hi1)⟩)
  | restartChild index =>
      rcases hpop : pop_value s with ⟨e, sE⟩ | ⟨sup_ref, s1⟩
      · simp only [execute, hpop] at hok
        cases hok
      · obtain ⟨hi1, hc1, hb1⟩ := pop_value_frame _ _ _ hpop
        simp only [execute, hpop] at hok
        repeat' split at hok
        all_goals cases hok
        all_goals rename push_value _ _ = _ => heqp
        all_goals (
          obtain ⟨hi2, hc2, hb2⟩ := push_value_frame _ _ _ heqp
          exact ⟨hb2.trans hb1, fun r hr => hcs r (hc1 ▸ hc2 ▸ hr),
            Or.inl (hi2.trans hi1)⟩)

/-- The IP/call-stack invariant maintained by the run loop: the IP never
passes the instruction count and every saved return address is a valid
instruction index. -/
def WellFormedRun (s : VMState) : Prop :=
  s.execution.ip ≤ s.execution.bytecode.length ∧
  ∀ r ∈ s.execution.call_stack, r < s.execution.bytecode.length

theorem step_ok_preserves_wf (s s' : VMState) (hwf : WellFormedRun s)
    (hok : step s = .ok s') :
    WellFormedRun s' ∧ s'.execution.bytecode = s.execution.bytecode := by
  by_cases hip : s.execution.ip < s.execution.bytecode.length
  · have hstep : step s =
        (match execute (s.execution.bytecode.get ⟨s.execution.ip, hip⟩) s with
          | .ok s0 =>
              if s0.execution.ip = s.execution.ip then
                .ok { s0 with execution :=
                  { s0.execution with ip := s0.execution.ip + 1 } }
              else .ok s0
          | r => r) := by
      unfold step
      rw [dif_pos hip]
    rw [hstep] at hok
    rcases hex : execute (s.execution.bytecode.get ⟨s.execution.ip, hip⟩) s
      with s0 | ⟨e0, sf⟩ | sb
    · rw [hex] at hok
      simp only [] at hok
      obtain ⟨hb, hc, hi⟩ := execute_ok_frame _ s s0 hex hwf.2 hip
      by_cases hsame : s0.execution.ip = s.execution.ip
      · rw [if_pos hsame] at hok
        cases hok
        refine ⟨⟨?_, ?_⟩, hb⟩
        · show s0.execution.ip + 1 ≤ _
          rw [hb, hsame]
          omega
        · intro r hr
          rw [hb]
          exact hc r hr
      · rw [if_neg hsame] at hok
        cases hok
        refine ⟨⟨?_, ?_⟩, hb⟩
        · rw [hb]
          rcases hi with h | h
          · omega
          · exact h
        · intro r hr
          rw [hb]
          exact hc r hr
    · rw [hex] at hok
      cases hok
    · rw [hex] at hok
      cases hok
  · have hoob : step s = .fault .executionOutOfBounds s := by
      unfold step
      rw [dif_neg hip]
    rw [hoob] at hok
    cases hok

theorem runFuel_ok_ip_eq_len (fuel : Nat) :
    ∀ s s' : VMState, WellFormedRun s → runFuel fuel s = .ok s' →
      s'.execution.ip = s'.execution.bytecode.length := by
  induction fuel with
  | zero =>
      intro s s' hwf h
      simp only [runFuel] at h
      split at h
      · cases h
      · cases h
        rename_i hnlt
        have := hwf.1
        omega
  | succ n ih =>
      intro s s' hwf h
      simp only [runFuel] at h
      split at h
      · split at h
        · rename_i s0 heq
          exact ih s0 s' (step_ok_preserves_wf s s0 hwf heq).1 h
        · cases h
        · cases h
      · cases h
        rename_i hnlt
        have := hwf.1
        omega

/-- C7: `run()` on an empty instruction vector faults `NoBytecode` without
stepping; every successful step from a well-formed state (IP within
`[0, len]`, saved return addresses within bounds — as holds for the state
`VM::new` builds) preserves well-formedness, so the IP stays in
`[0, len]`; the run loop returns `Ok` from a well-formed state exactly when
the IP has reached the instruction count. -/
theorem C7_run_loop_ip_invariant :
    (∀ (fuel : Nat) (s : VMState), s.execution.bytecode = [] →
      run fuel s = .fault .noBytecode s) ∧
    (∀ bytecode, WellFormedRun (VMState.mkNew bytecode)) ∧
    (∀ s s' : VMState, WellFormedRun s → step s = .ok s' →
      WellFormedRun s' ∧ s'.execution.ip ≤ s'.execution.bytecode.length) ∧
    (∀ (fuel : Nat) (s s' : VMState), WellFormedRun s → runFuel fuel s = .ok s' →
      s'.execution.ip = s'.execution.bytecode.length) ∧
    (∀ (fuel : Nat) (s : VMState), s.execution.ip = s.execution.bytecode.length →
      runFuel fuel s = .ok s) := by
  refine ⟨?_, ?_, ?_, ?_, ?_⟩
  · intro fuel s h
    simp [run, h]
  · intro bytecode
    exact ⟨Nat.zero_le _, by intro r hr; cases hr⟩
  · intro s s' hwf hok
    obtain ⟨hwf', _⟩ := step_ok_preserves_wf s s' hwf hok
    exact ⟨hwf', hwf'.1⟩
  · intro fuel s s' hwf h
    exact runFuel_ok_ip_eq_len fuel s s' hwf h
  · intro fuel s h
    cases fuel <;> simp [runFuel, h]

/-- A one-instruction program for the run-loop witness. -/
def c7_wit_state : VMState := VMState.mkNew [.pushConst (.integer 7)]

/-- Its final state: IP 1 = instruction count. -/
def c7_wit_final : VMState :=
  ⟨⟨[.integer 7], [], 1, [], [.pushConst (.integer 7)]⟩, Heap.mkNew, ⟨[], false⟩⟩

/-- Witness for C7 at a concrete run: the loop returns `Ok` with the IP
exactly at the instruction count. -/
theorem C7_witness :
    c7_wit_final.execution.ip = c7_wit_final.execution.bytecode.length :=
  C7_run_loop_ip_invariant.2.2.2.1 2 c7_wit_state c7_wit_final
    ⟨by decide, by intro r hr; cases hr⟩ (by decide)

end RaftVM
